import Mathlib

/-!
Verification development for the rag-cimav repository: a shallow embedding of
the chunking routine (json_to_sql_converter.py, ThesisJSONToSQLConverter.tokenize_text),
the section classifier (xml_analyzer.py, GrobidXMLAnalyzer.categorize_section),
the hybrid vector-plus-metadata searcher
(pruebas_calderon/semantic_search_sqlite.py, FaissSemanticSearchSQLite.search),
and the JSON-to-SQL ingestion flow (ThesisJSONToSQLConverter.insert_document,
insert_sections_and_chunks, insert_references, convert_json_to_sql).

Python strings are modeled as List Char; machine floats returned by the FAISS
index are modeled as Int scores (the code only copies and compares them);
SQLite tables are modeled as Lean lists of row structures with explicit
autoincrement counters.
-/

/-- Python regex class \s restricted to the ASCII whitespace characters
(space, tab, newline, carriage return, vertical tab, form feed). -/
def isPySpace (c : Char) : Bool :=
  c == ' ' || c == '\t' || c == '\n' || c == '\r' || c == '\x0b' || c == '\x0c'

/-- Python str.lower restricted to the characters occurring in this
repository (ASCII letters and the accented Latin letters used by the
section keyword table). -/
def pyCharLower (c : Char) : Char :=
  if 'A' ≤ c && c ≤ 'Z' then Char.ofNat (c.toNat + 32)
  else if c == 'Á' then 'á'
  else if c == 'É' then 'é'
  else if c == 'Í' then 'í'
  else if c == 'Ó' then 'ó'
  else if c == 'Ú' then 'ú'
  else if c == 'Ñ' then 'ñ'
  else c

/-- Python regex class \w (word character) for the characters occurring in
this repository: ASCII alphanumerics, underscore, and the accented Latin
letters of the keyword table. -/
def isWordChar (c : Char) : Bool :=
  c.isAlpha || c.isDigit || c == '_' ||
  c == 'á' || c == 'é' || c == 'í' || c == 'ó' || c == 'ú' || c == 'ñ' || c == 'ü' ||
  c == 'Á' || c == 'É' || c == 'Í' || c == 'Ó' || c == 'Ú' || c == 'Ñ' || c == 'Ü'

/-- Python str.strip on a character list: drop leading and trailing
whitespace. -/
def pyStrip (l : List Char) : List Char :=
  (l.dropWhile isPySpace).rdropWhile isPySpace

/-- Python slice l[a:b] with clamping semantics. -/
def pySlice (l : List Char) (a b : Nat) : List Char :=
  (l.take b).drop a

/-- One pass of re.sub(r"\s+", " ", text): each maximal whitespace run is
replaced by a single space. The Boolean argument records whether the
previous character was whitespace. -/
def collapseAux : Bool → List Char → List Char
  | _, [] => []
  | prev, c :: rest =>
    if isPySpace c then
      if prev then collapseAux true rest
      else ' ' :: collapseAux true rest
    else c :: collapseAux false rest

/-- The normalization tokenize_text applies before segmentation:
re.sub(r"\s+", " ", text.strip()). -/
def normalizeText (l : List Char) : List Char :=
  collapseAux false (pyStrip l)

/-- Delete every whitespace character. -/
def removeWS (l : List Char) : List Char :=
  l.filter (fun c => !isPySpace c)

/-- Whether pattern pat occurs in l starting at index i. -/
def matchAt (l pat : List Char) (i : Nat) : Bool :=
  pat.isPrefixOf (l.drop i)

/-- Python str.rfind(pat, start, stop): the largest index i with
start <= i, i + len(pat) <= min(stop, len(l)) and a match at i;
none when there is no occurrence (Python returns -1). -/
def rfindIn (l pat : List Char) (start stop : Nat) : Option Nat :=
  ((List.range (min stop l.length + 1)).filter
    (fun i => decide (start ≤ i) && decide (i + pat.length ≤ min stop l.length)
      && matchAt l pat i)).getLast?

/-- One separator attempt of the natural-boundary search in tokenize_text:
last_sep = text.rfind(sep, start, stop); accepted only if last_sep > start,
in which case the new end is last_sep + len(sep). -/
def trySep (l sep : List Char) (start stop : Nat) : Option Nat :=
  match rfindIn l sep start stop with
  | some i => if start < i then some (i + sep.length) else none
  | none => none

/-- The separator priority loop of tokenize_text: try ". ", then "\n",
then " ". -/
def findCut (l : List Char) (start stop : Nat) : Option Nat :=
  match trySep l ['.', ' '] start stop with
  | some e => some e
  | none =>
    match trySep l ['\n'] start stop with
    | some e => some e
    | none => trySep l [' '] start stop

/-- The end offset tokenize_text computes for the chunk starting at start:
the raw end start + chunk_size, snapped back to a natural separator when
the raw end falls strictly before the end of the text. -/
def chunkEnd (l : List Char) (cs start : Nat) : Nat :=
  let e0 := start + cs
  if e0 < l.length then
    match findCut l start e0 with
    | some e => e
    | none => e0
  else e0

/-- The cursor advance of tokenize_text: start = max(start + 1, end - overlap). -/
def nextStart (l : List Char) (cs ov start : Nat) : Nat :=
  max (start + 1) (chunkEnd l cs start - ov)

/-- One chunk record of tokenize_text (the dict appended to the result
list), for the chunk starting at offset start with running index ci. -/
structure PyChunk where
  text : List Char
  size : Nat
  index : Nat
  start_pos : Nat
  end_pos : Nat
  overlap_start : Nat
  overlap_end : Nat
deriving DecidableEq, Repr

/-- The chunk record built at cursor position start with chunk_index ci:
text = text[start:end].strip(), size = len(text), overlap_start =
max(0, start - overlap) for every chunk except the first (which gets 0),
overlap_end = min(len(text), end + overlap). -/
def mkPyChunk (l : List Char) (cs ov start ci : Nat) : PyChunk :=
  { text := pyStrip (pySlice l start (chunkEnd l cs start))
    size := (pyStrip (pySlice l start (chunkEnd l cs start))).length
    index := ci
    start_pos := start
    end_pos := chunkEnd l cs start
    overlap_start := if 0 < ci then start - ov else 0
    overlap_end := min l.length (chunkEnd l cs start + ov) }

/-- The while-loop of tokenize_text, fueled: while start < len(text),
compute the end, emit the chunk when its stripped text is non-empty, then
advance the cursor. The fuel argument dominates the number of iterations;
the loop consumes at most len(text) - start iterations because the cursor
strictly advances. -/
def tokenizeGo (l : List Char) (cs ov : Nat) : Nat → Nat → Nat → List PyChunk
  | 0, _, _ => []
  | fuel + 1, start, ci =>
    if start < l.length then
      if (pyStrip (pySlice l start (chunkEnd l cs start))).isEmpty then
        tokenizeGo l cs ov fuel (nextStart l cs ov start) ci
      else
        mkPyChunk l cs ov start ci ::
          tokenizeGo l cs ov fuel (nextStart l cs ov start) (ci + 1)
    else []

/-- ThesisJSONToSQLConverter.tokenize_text: returns [] when the input is
empty or its stripped length is below 10; otherwise normalizes whitespace
and runs the segmentation loop from offset 0. -/
def tokenize_text (text : String) (chunk_size overlap : Nat) : List PyChunk :=
  let tl := text.toList
  if tl.isEmpty || (pyStrip tl).length < 10 then []
  else
    tokenizeGo (normalizeText tl) chunk_size overlap (normalizeText tl).length 0 0

/-- Concatenation of the text fields of a chunk list, in sequence order. -/
def concatTexts (cl : List PyChunk) : List Char :=
  cl.foldr (fun c acc => c.text ++ acc) []

/-! ## Section classifier (xml_analyzer.py, GrobidXMLAnalyzer) -/

/-- The section_mappings dictionary of GrobidXMLAnalyzer, in insertion
order (Python dicts preserve insertion order, which fixes the first-seen
tie-breaking of the scan). -/
def section_mappings : List (String × List String) :=
  [("resumen", ["resumen", "summary", "abstract", "síntesis"]),
   ("abstract", ["abstract", "resumen", "summary"]),
   ("introduccion", ["introducción", "introduction", "intro", "presentación"]),
   ("antecedentes", ["antecedentes", "background", "marco histórico", "contexto histórico"]),
   ("estado_del_arte", ["estado del arte", "state of the art", "revisión bibliográfica",
                        "literature review", "marco teórico"]),
   ("objetivos", ["objetivos", "objectives", "goals", "propósitos"]),
   ("justificacion", ["justificación", "justification", "motivación", "motivation"]),
   ("objetivo_general", ["objetivo general", "general objective", "main objective",
                         "propósito general"]),
   ("hipotesis", ["hipótesis", "hypothesis", "supuestos", "assumptions"]),
   ("metodologia", ["metodología", "methodology", "métodos", "methods",
                    "diseño metodológico"]),
   ("resultados", ["resultados", "results", "findings", "hallazgos"]),
   ("conclusiones", ["conclusiones", "conclusions", "conclusión", "conclusion", "cierre"])]

/-- Python substring test: needle in hay. -/
def containsSeq (hay needle : List Char) : Bool :=
  (List.range (hay.length + 1)).any (fun i => needle.isPrefixOf (hay.drop i))

/-- Length of the common run of a and b starting at positions i and j,
truncated at the interval bounds ahi and bhi; the first argument is fuel
dominating the run length. -/
def runLen (a b : List Char) (ahi bhi : Nat) : Nat → Nat → Nat → Nat
  | 0, _, _ => 0
  | fuel + 1, i, j =>
    if decide (i < ahi) && decide (j < bhi) && (a.getD i ' ' == b.getD j ' ') then
      1 + runLen a b ahi bhi fuel (i + 1) (j + 1)
    else 0

/-- difflib.SequenceMatcher.find_longest_match on the intervals
a[alo:ahi] and b[blo:bhi], with no junk (isjunk=None, and autojunk never
fires because every keyword is far shorter than 200 characters): the
longest matching block, ties resolved to the earliest start in a and then
in b. Returns (i, j, size). -/
def findLongestMatch (a b : List Char) (alo ahi blo bhi : Nat) : Nat × Nat × Nat :=
  (List.range ahi).foldl (fun best i =>
    if i < alo then best
    else (List.range bhi).foldl (fun best j =>
      if j < blo then best
      else
        let k := runLen a b ahi bhi (ahi - i) i j
        if best.2.2 < k then (i, j, k) else best) best) (alo, blo, 0)

/-- Total size of the matching blocks of SequenceMatcher.get_matching_blocks
on the intervals a[alo:ahi], b[blo:bhi]: recursively take the longest match
and recurse on the parts before and after it. The fuel dominates the
recursion depth. -/
def matchTotalAux (a b : List Char) : Nat → Nat → Nat → Nat → Nat → Nat
  | 0, _, _, _, _ => 0
  | fuel + 1, alo, ahi, blo, bhi =>
    let r := findLongestMatch a b alo ahi blo bhi
    if r.2.2 = 0 then 0
    else
      matchTotalAux a b fuel alo r.1 blo r.2.1 + r.2.2 +
        matchTotalAux a b fuel (r.1 + r.2.2) ahi (r.2.1 + r.2.2) bhi

/-- Total number of matched elements M used by SequenceMatcher.ratio. -/
def matchTotal (a b : List Char) : Nat :=
  matchTotalAux a b (a.length + b.length + 1) 0 a.length 0 b.length

/-- difflib.SequenceMatcher.ratio: 2*M / T where T is the total length;
1 when both sequences are empty. The Python float score is modeled as the
exact fraction, kept as an unreduced numerator/denominator pair of
naturals with a positive denominator; on the ratios arising here
(denominators bounded by the compared string lengths) exact fraction
comparison coincides with the double-precision comparison the code
performs, because distinct candidate scores differ by far more than the
rounding error. -/
def ratio (a b : List Char) : Nat × Nat :=
  if a.length + b.length = 0 then (1, 1)
  else (2 * matchTotal a b, a.length + b.length)

/-- Strict comparison of two fraction scores by cross-multiplication. -/
def scoreLt (x y : Nat × Nat) : Bool :=
  decide (x.1 * y.2 < y.1 * x.2)

/-- GrobidXMLAnalyzer.similarity: SequenceMatcher(None, a.lower(), b.lower()).ratio(). -/
def similarity (a b : List Char) : Nat × Nat :=
  ratio (a.map pyCharLower) (b.map pyCharLower)

/-- The title normalization of categorize_section:
re.sub(r"[^\w\s]", "", section_title.lower()). -/
def cleanTitle (s : String) : List Char :=
  (s.toList.map pyCharLower).filter (fun c => isWordChar c || isPySpace c)

/-- One keyword step of the categorize_section scan: first the title
substring test (score = similarity of the whole cleaned title and the
keyword), then the content-preview substring test (fixed score 0.7);
each updates the best (category, score) pair only on a strictly greater
score, so the first-seen pair wins ties. -/
def catStep (clean cstart : List Char) (cat : String)
    (acc : Option String × (Nat × Nat)) (kw : List Char) :
    Option String × (Nat × Nat) :=
  let acc1 :=
    if containsSeq clean kw then
      if scoreLt acc.2 (similarity clean kw) then (some cat, similarity clean kw) else acc
    else acc
  if containsSeq cstart kw then
    if scoreLt acc1.2 (7, 10) then (some cat, (7, 10)) else acc1
  else acc1

/-- GrobidXMLAnalyzer.categorize_section: scan every (category, keyword)
pair keeping the best score, and return the best category only when its
score strictly exceeds 0.6, otherwise the fallback category "otros".
The content preview is content[:200].lower() (empty content stays empty). -/
def categorize_section (title content : String) : String :=
  let clean := cleanTitle title
  let cstart := (content.toList.take 200).map pyCharLower
  let best := section_mappings.foldl
    (fun acc p => p.2.foldl (fun a kw => catStep clean cstart p.1 a kw.toList) acc)
    ((none : Option String), ((0, 1) : Nat × Nat))
  if scoreLt (3, 5) best.2 then best.1.getD "otros" else "otros"

/-! ## Hybrid searcher (pruebas_calderon/semantic_search_sqlite.py) -/

/-- One row returned by FaissSemanticSearchSQLite._get_chunk_with_metadata:
the chunk joined with its document metadata. All text columns are modeled
as strings (SQLite NULL text is modeled as the empty string, which has the
same Python truthiness). -/
structure ChunkRec where
  chunk_id : Nat
  «section» : String
  subsection : String
  text : String
  student_id : String
  student_name : String
  journal : String
  editorial : String
  doi : String
  published_date : String
  conference : String
  isbn : String
  title : String
  abstract : String
  keywords : String
  affiliations : String
  authors : String
deriving DecidableEq, Repr

/-- The optional attribute filters accepted by
FaissSemanticSearchSQLite.search; a field is none when the key is absent
from the filters dict. The author filter may be given as a raw
semicolon-separated string or as an already-split list, mirroring the
isinstance(str) branch of the code. -/
structure Filters where
  title : Option String
  student_id : Option String
  student_name : Option String
  author : Option (String ⊕ List String)
  journal : Option String
  editorial : Option String
  year : Option String
  abstract : Option String
  keywords : Option String
  affiliations : Option String
deriving DecidableEq, Repr

/-- The empty filters dict (no filtering). -/
def noFilters : Filters :=
  { title := none, student_id := none, student_name := none, author := none,
    journal := none, editorial := none, year := none, abstract := none,
    keywords := none, affiliations := none }

/-- One result dict appended by FaissSemanticSearchSQLite.search
(the code does not copy the editorial column into the result). -/
structure SearchResult where
  chunk_id : Nat
  «section» : String
  subsection : String
  text : String
  score : Int
  title : String
  abstract : String
  keywords : String
  affiliations : String
  student_name : String
  student_id : String
  authors : String
  journal : String
  doi : String
  published_date : String
  conference : String
  isbn : String
deriving DecidableEq, Repr

/-- The result dict for chunk row c with ANN distance d. -/
def mkResult (c : ChunkRec) (d : Int) : SearchResult :=
  { chunk_id := c.chunk_id, «section» := c.«section», subsection := c.subsection,
    text := c.text, score := d, title := c.title, abstract := c.abstract,
    keywords := c.keywords, affiliations := c.affiliations,
    student_name := c.student_name, student_id := c.student_id,
    authors := c.authors, journal := c.journal, doi := c.doi,
    published_date := c.published_date, conference := c.conference,
    isbn := c.isbn }

/-- Python str.lower of a string (restricted as in pyCharLower). -/
def lowerString (s : String) : String :=
  String.mk (s.toList.map pyCharLower)

/-- Python case-insensitive substring test: needle.lower() in hay.lower(). -/
def containsCI (needle hay : String) : Bool :=
  containsSeq (lowerString hay).toList (lowerString needle).toList

/-- Python str.strip of a string. -/
def pyStripString (s : String) : String :=
  String.mk (pyStrip s.toList)

/-- The author filter preprocessing:
[x.strip() for x in authors_filter.split(";")]. -/
def splitAuthors (s : String) : List String :=
  (s.splitOn ";").map pyStripString

/-- The title filter test of search. -/
def titleOk (f : Filters) (c : ChunkRec) : Bool :=
  match f.title with
  | none => true
  | some v => containsCI v c.title

/-- The student_id filter test of search (exact equality). -/
def studentIdOk (f : Filters) (c : ChunkRec) : Bool :=
  match f.student_id with
  | none => true
  | some v => v == c.student_id

/-- The student_name filter test of search. -/
def studentNameOk (f : Filters) (c : ChunkRec) : Bool :=
  match f.student_name with
  | none => true
  | some v => containsCI v c.student_name

/-- The author filter test of search: any of the candidate names is a
case-insensitive substring of the authors column. -/
def authorOk (f : Filters) (c : ChunkRec) : Bool :=
  match f.author with
  | none => true
  | some (Sum.inl s) => (splitAuthors s).any (fun nm => containsCI nm c.authors)
  | some (Sum.inr l) => l.any (fun nm => containsCI nm c.authors)

/-- The journal filter test of search. -/
def journalOk (f : Filters) (c : ChunkRec) : Bool :=
  match f.journal with
  | none => true
  | some v => containsCI v c.journal

/-- The editorial filter test of search. -/
def editorialOk (f : Filters) (c : ChunkRec) : Bool :=
  match f.editorial with
  | none => true
  | some v => containsCI v c.editorial

/-- The year filter test of search: the code guards the comparison with
the truthiness of published_date, so a row with an empty published_date
passes the year filter unconditionally; otherwise the filter value must
equal published_date[:4]. -/
def yearOk (f : Filters) (c : ChunkRec) : Bool :=
  match f.year with
  | none => true
  | some y => if c.published_date == "" then true else y == c.published_date.take 4

/-- The abstract filter test of search. -/
def abstractOk (f : Filters) (c : ChunkRec) : Bool :=
  match f.abstract with
  | none => true
  | some v => containsCI v c.abstract

/-- The keywords filter test of search. -/
def keywordsOk (f : Filters) (c : ChunkRec) : Bool :=
  match f.keywords with
  | none => true
  | some v => containsCI v c.keywords

/-- The affiliations filter test of search. -/
def affiliationsOk (f : Filters) (c : ChunkRec) : Bool :=
  match f.affiliations with
  | none => true
  | some v => containsCI v c.affiliations

/-- The conjunction of the attribute filter tests, in the order the code
evaluates them. -/
def passFilters (f : Filters) (c : ChunkRec) : Bool :=
  titleOk f c && studentIdOk f c && studentNameOk f c && authorOk f c &&
  journalOk f c && editorialOk f c && yearOk f c && abstractOk f c &&
  keywordsOk f c && affiliationsOk f c

/-- The section filter of search: `if sections and chunk["section"] not in
sections: continue`. A None or empty sections list is falsy in Python, so
it disables the filter. -/
def sectionsPass (sections : Option (List String)) (sec : String) : Bool :=
  match sections with
  | none => true
  | some ss => ss.isEmpty || ss.contains sec

/-- Resolution of one ANN identifier: skip when idx < 0 or idx is out of
range of the loaded chunk_ids list, then look the chunk id up in the
metadata store (modeled as a partial function, none = no row). -/
def lookupHit (chunk_ids : List Nat) (meta : Nat → Option ChunkRec) (i : Int) :
    Option ChunkRec :=
  if i < 0 then none
  else
    match chunk_ids.get? i.toNat with
    | none => none
    | some cid => meta cid

/-- Full processing of one ANN hit (distance, index): identifier
resolution, metadata lookup, section filter, attribute filters; some
result exactly when the hit survives. -/
def resolveHit (chunk_ids : List Nat) (meta : Nat → Option ChunkRec)
    (sections : Option (List String)) (f : Filters) (h : Int × Int) :
    Option SearchResult :=
  match lookupHit chunk_ids meta h.2 with
  | none => none
  | some c =>
    if sectionsPass sections c.«section» && passFilters f c then
      some (mkResult c h.1)
    else none

/-- The collection loop of FaissSemanticSearchSQLite.search over the ANN
hits: append each surviving hit and stop as soon as k results have been
collected (the code checks len(results) >= k after appending). cnt is the
number of results collected so far. -/
def searchGo (ri : Int × Int → Option SearchResult) (k : Nat) :
    List (Int × Int) → Nat → List SearchResult
  | [], _ => []
  | h :: rest, cnt =>
    match ri h with
    | none => searchGo ri k rest cnt
    | some r => if k ≤ cnt + 1 then [r] else r :: searchGo ri k rest (cnt + 1)

/-- FaissSemanticSearchSQLite.search after the embedding and index call:
the hits argument is the list of (distance, index) pairs in the order the
FAISS index returned them (zip of D[0] and I[0] from the over-fetched
query), chunk_ids is the loaded chunk-id list, meta the metadata lookup. -/
def search (chunk_ids : List Nat) (meta : Nat → Option ChunkRec)
    (hits : List (Int × Int)) (k : Nat) (sections : Option (List String))
    (f : Filters) : List SearchResult :=
  searchGo (resolveHit chunk_ids meta sections f) k hits 0

/-! ## JSON-to-SQL converter (json_to_sql_converter.py, ThesisJSONToSQLConverter) -/

/-- One entry of content.sections in the thesis-analysis JSON. -/
structure SectionData where
  title : String
  category : String
  content : String
deriving DecidableEq, Repr

/-- The metadata block of one thesis-analysis record. -/
structure ThesisMeta where
  title : String
  authors : List String
  date : Option String
  abstract : Option String
deriving DecidableEq, Repr

/-- The content block of one thesis-analysis record. -/
structure ThesisContent where
  language : String
  sections : List SectionData
deriving DecidableEq, Repr

/-- One bibliographic reference of a thesis-analysis record. -/
structure RefData where
  title : Option String
  authors : List String
  date : Option String
deriving DecidableEq, Repr

/-- One thesis-analysis record of the input JSON (dict .get defaults are
folded into total fields). -/
structure ThesisData where
  file : String
  status : String
  metadata : ThesisMeta
  content : ThesisContent
  references : List RefData
deriving DecidableEq, Repr

/-- One row of the documents table. -/
structure DocumentRow where
  id : Nat
  filename : String
  title : String
  language : String
  authors : List String
  date_published : Option String
  abstract : Option String
  total_sections : Nat
  total_references : Nat
  file_hash : String
deriving DecidableEq, Repr

/-- One row of the sections table. -/
structure SectionRow where
  id : Nat
  document_id : Nat
  section_title : String
  section_category : String
  content : String
  content_length : Nat
  tokens_count : Nat
  chunk_index : Nat
deriving DecidableEq, Repr

/-- One row of the text_chunks table (metadata_json omitted: it is a
serialization of fields already present elsewhere in the model). -/
structure TextChunkRow where
  id : Nat
  document_id : Nat
  section_id : Nat
  chunk_text : List Char
  chunk_size : Nat
  chunk_index : Nat
  overlap_start : Nat
  overlap_end : Nat
deriving DecidableEq, Repr

/-- One row of the bibliographic_references table. -/
structure BibRefRow where
  id : Nat
  document_id : Nat
  ref_title : Option String
  ref_authors : List String
  ref_date : Option String
  ref_index : Nat
deriving DecidableEq, Repr

/-- The SQLite database state: the four tables plus the autoincrement
counters (SQLite AUTOINCREMENT primary keys start at 1 and lastrowid is
the id just assigned). -/
structure DB where
  documents : List DocumentRow
  sections : List SectionRow
  text_chunks : List TextChunkRow
  bib_refs : List BibRefRow
  nextDocId : Nat
  nextSectionId : Nat
  nextChunkId : Nat
  nextRefId : Nat
deriving DecidableEq, Repr

/-- A freshly created database (setup_database on a new file). -/
def emptyDB : DB :=
  { documents := [], sections := [], text_chunks := [], bib_refs := [],
    nextDocId := 1, nextSectionId := 1, nextChunkId := 1, nextRefId := 1 }

/-- ThesisJSONToSQLConverter.insert_document: compute the content
fingerprint, return the existing document id if a row with that hash is
already present (duplicate detection short-circuit), otherwise insert a
new documents row and return its fresh id. The MD5-of-str fingerprint
calculate_file_hash is abstracted as an arbitrary deterministic function
hashFn of the record (the code only compares fingerprints for equality;
the SQLite UNIQUE constraint on filename is never exercised in the flows
modeled here because a duplicate record hits the hash check first). -/
def insert_document (hashFn : ThesisData → String) (db : DB) (d : ThesisData) :
    Nat × DB :=
  let h := hashFn d
  match db.documents.find? (fun row => row.file_hash == h) with
  | some row => (row.id, db)
  | none =>
    let id := db.nextDocId
    (id,
      { db with
        documents := db.documents ++
          [{ id := id, filename := d.file, title := d.metadata.title,
             language := d.content.language, authors := d.metadata.authors,
             date_published := d.metadata.date, abstract := d.metadata.abstract,
             total_sections := d.content.sections.length,
             total_references := d.references.length, file_hash := h }],
        nextDocId := id + 1 })

/-- ThesisJSONToSQLConverter.estimate_tokens: len(text) // 4. -/
def estimate_tokens (text : String) : Nat :=
  text.length / 4

/-- ThesisJSONToSQLConverter.insert_sections_and_chunks: for every section
of the record insert a sections row, tokenize its content with the default
configuration (chunk_size 512, overlap 50) and insert one text_chunks row
per chunk. -/
def insert_sections_and_chunks (db : DB) (document_id : Nat) (d : ThesisData) : DB :=
  d.content.sections.foldl (fun db sec =>
    let sid := db.nextSectionId
    let db1 :=
      { db with
        sections := db.sections ++
          [{ id := sid, document_id := document_id, section_title := sec.title,
             section_category := sec.category, content := sec.content,
             content_length := sec.content.length,
             tokens_count := estimate_tokens sec.content, chunk_index := 0 }],
        nextSectionId := sid + 1 }
    (tokenize_text sec.content 512 50).foldl (fun db ch =>
      { db with
        text_chunks := db.text_chunks ++
          [{ id := db.nextChunkId, document_id := document_id, section_id := sid,
             chunk_text := ch.text, chunk_size := ch.size,
             chunk_index := ch.index, overlap_start := ch.overlap_start,
             overlap_end := ch.overlap_end }],
        nextChunkId := db.nextChunkId + 1 }) db1) db

/-- ThesisJSONToSQLConverter.insert_references: one bibliographic_references
row per reference, with its enumeration index. -/
def insert_references (db : DB) (document_id : Nat) (d : ThesisData) : DB :=
  (d.references.foldl (fun (p : DB × Nat) ref =>
    ({ p.1 with
        bib_refs := p.1.bib_refs ++
          [{ id := p.1.nextRefId, document_id := document_id,
             ref_title := ref.title, ref_authors := ref.authors,
             ref_date := ref.date, ref_index := p.2 }],
        nextRefId := p.1.nextRefId + 1 }, p.2 + 1)) (db, 0)).1

/-- The per-record body of ThesisJSONToSQLConverter.convert_json_to_sql:
records whose status is not success are skipped; otherwise insert_document
is called and then, unconditionally with the returned id,
insert_sections_and_chunks and insert_references. -/
def processThesis (hashFn : ThesisData → String) (db : DB) (d : ThesisData) : DB :=
  if d.status ≠ "success" then db
  else
    let r := insert_document hashFn db d
    insert_references (insert_sections_and_chunks r.2 r.1 d) r.1 d

/-- ThesisJSONToSQLConverter.convert_json_to_sql on a list of parsed
thesis-analysis records. -/
def convert_json_to_sql (hashFn : ThesisData → String) (db : DB)
    (ds : List ThesisData) : DB :=
  ds.foldl (processThesis hashFn) db

/-! ## Concrete fixtures used by closed instantiations -/

/-- A concrete metadata row used for concrete evaluations of search. -/
def wChunk1 : ChunkRec :=
  { chunk_id := 7, «section» := "metodologia", subsection := "", text := "t1",
    student_id := "S1", student_name := "Ana Lopez", journal := "Nano J",
    editorial := "ED", doi := "", published_date := "2021-05-01", conference := "",
    isbn := "", title := "Materiales Avanzados", abstract := "estudio de nano",
    keywords := "nano; materiales", affiliations := "CIMAV",
    authors := "Ana Lopez; Bob Perez" }

/-- A second concrete row whose published_date column is empty. -/
def wChunk2 : ChunkRec :=
  { wChunk1 with chunk_id := 8, «section» := "resultados", published_date := "", student_id := "S2" }

/-- A concrete metadata store holding the two rows. -/
def wMeta : Nat → Option ChunkRec :=
  fun n => if n = 7 then some wChunk1 else if n = 8 then some wChunk2 else none

/-- A concrete chunk-id list. -/
def wIds : List Nat := [7, 8]

/-- A concrete ANN answer: ascending distances, including a negative
index and an out-of-range index as FAISS padding produces. -/
def wHits : List (Int × Int) := [(1, 0), (2, 1), (3, 0), (4, -1), (5, 99)]

/-- A filters dict holding only a year criterion. -/
def fYear : Filters := { noFilters with year := some "2020" }

/-- A filters dict holding a title and a student_id criterion. -/
def fTitleSid : Filters := { noFilters with title := some "avanzados", student_id := some "S1" }

/-- A concrete successfully-parsed thesis record with one section and one
reference. -/
def dC3 : ThesisData :=
  { file := "tesis1.xml", status := "success",
    metadata := { title := "Tesis de prueba", authors := ["Ana Lopez"],
                  date := some "2021", abstract := some "res" },
    content := { language := "spanish",
                 sections := [{ title := "Metodología", category := "metodologia",
                                content := "Esta tesis estudia materiales avanzados." }] },
    references := [{ title := some "Ref A", authors := ["Bob"], date := none }] }

/-- A concrete deterministic fingerprint function standing for
calculate_file_hash (md5 of str(data)); the duplicate-detection logic only
compares fingerprints of records for equality, and the scenario evaluated
involves a single distinct record. -/
def hC3 : ThesisData → String := fun d => d.file

/-! ## Theorems about the hybrid searcher -/

theorem searchGo_eq_take (ri : Int × Int → Option SearchResult) (k : Nat) :
    ∀ (hits : List (Int × Int)) (cnt : Nat), cnt < k →
      searchGo ri k hits cnt = (hits.filterMap ri).take (k - cnt) := by
  intro hits
  induction hits with
  | nil => intro cnt _; simp [searchGo]
  | cons h rest ih =>
    intro cnt hcnt
    cases hri : ri h with
    | none => simp [searchGo, hri, List.filterMap_cons, ih cnt hcnt]
    | some r =>
      by_cases hk : k ≤ cnt + 1
      · have h1 : k - cnt = 1 := by omega
        simp [searchGo, hri, List.filterMap_cons, hk, h1]
      · have h1 : cnt + 1 < k := by omega
        have h2 : k - cnt = (k - (cnt + 1)) + 1 := by omega
        simp [searchGo, hri, List.filterMap_cons, hk, h2, ih (cnt + 1) h1]

/-- C1: for every ANN answer (rank-ordered hit list), every topK at least 1
and every combination of section filter and attribute filters,
FaissSemanticSearchSQLite.search returns exactly the first topK survivors
of the candidate list, i.e. the truncation to topK of the
order-preserving filterMap of the hits; hence at most topK results, hits
kept in ANN order and never re-sorted, collection stopping at topK, and
the smaller surviving set returned as is when fewer than topK survive. -/
theorem c1_search_topk_order (chunk_ids : List Nat) (meta : Nat → Option ChunkRec)
    (hits : List (Int × Int)) (k : Nat) (sections : Option (List String))
    (f : Filters) (hk : 1 ≤ k) :
    search chunk_ids meta hits k sections f
        = (hits.filterMap (resolveHit chunk_ids meta sections f)).take k
      ∧ (search chunk_ids meta hits k sections f).length ≤ k := by
  have h := searchGo_eq_take (resolveHit chunk_ids meta sections f) k hits 0 (by omega)
  refine ⟨by simpa [search] using h, ?_⟩
  have h0 : search chunk_ids meta hits k sections f
      = (hits.filterMap (resolveHit chunk_ids meta sections f)).take k := by
    simpa [search] using h
  rw [h0]
  simp [List.length_take]

theorem c1_search_topk_order_witness :
    1 ≤ 2
      ∧ (search wIds wMeta wHits 2 none noFilters
            = (wHits.filterMap (resolveHit wIds wMeta none noFilters)).take 2
          ∧ (search wIds wMeta wHits 2 none noFilters).length ≤ 2) :=
  ⟨by decide, c1_search_topk_order wIds wMeta wHits 2 none noFilters (by decide)⟩

/-- C2 counterexample: with the attribute filter dict {year: "2020"}
supplied, search returns the hit whose published_date column is empty even
though the year predicate of the claim (exact match of the filter value
against the first four characters of published_date) fails on it, because
the code guards the comparison behind the truthiness of published_date. -/
theorem c2_counterexample_year_filter :
    search wIds wMeta [((2 : Int), (1 : Int))] 5 none fYear = [mkResult wChunk2 2]
      ∧ fYear.year = some "2020"
      ∧ (mkResult wChunk2 2).published_date.take 4 ≠ "2020" := by decide

theorem searchGo_mem (ri : Int × Int → Option SearchResult) (k : Nat) :
    ∀ (hits : List (Int × Int)) (cnt : Nat) (r : SearchResult),
      r ∈ searchGo ri k hits cnt → ∃ h, h ∈ hits ∧ ri h = some r := by
  intro hits
  induction hits with
  | nil => intro cnt r hr; simp [searchGo] at hr
  | cons h rest ih =>
    intro cnt r hr
    cases hri : ri h with
    | none =>
      simp only [searchGo, hri] at hr
      obtain ⟨h', hmem, hh⟩ := ih cnt r hr
      exact ⟨h', List.mem_cons_of_mem _ hmem, hh⟩
    | some r' =>
      simp only [searchGo, hri] at hr
      by_cases hk : k ≤ cnt + 1
      · rw [if_pos hk] at hr
        simp at hr
        exact ⟨h, List.mem_cons_self _ _, by rw [hri, hr]⟩
      · rw [if_neg hk] at hr
        rcases List.mem_cons.mp hr with hEq | hTail
        · exact ⟨h, List.mem_cons_self _ _, by rw [hri, hEq]⟩
        · obtain ⟨h', hmem, hh⟩ := ih (cnt + 1) r hTail
          exact ⟨h', List.mem_cons_of_mem _ hmem, hh⟩

theorem resolveHit_inv (chunk_ids : List Nat) (meta : Nat → Option ChunkRec)
    (sections : Option (List String)) (f : Filters) (h : Int × Int)
    (r : SearchResult) (hr : resolveHit chunk_ids meta sections f h = some r) :
    ∃ c, lookupHit chunk_ids meta h.2 = some c
      ∧ sectionsPass sections c.«section» = true ∧ passFilters f c = true
      ∧ r = mkResult c h.1 := by
  unfold resolveHit at hr
  cases hl : lookupHit chunk_ids meta h.2 with
  | none => rw [hl] at hr; cases hr
  | some c =>
    simp only [hl] at hr
    by_cases hcond : (sectionsPass sections c.«section» && passFilters f c) = true
    · rw [if_pos hcond] at hr
      obtain ⟨hs, hp⟩ := Bool.and_eq_true_iff.mp hcond
      exact ⟨c, rfl, hs, hp, (Option.some_inj.mp hr).symm⟩
    · rw [if_neg hcond] at hr
      cases hr

/-- C2 (amended): every hit returned by search with attribute filters
satisfies every supplied predicate, each evaluated independently by its
type and combined conjunctively -- exact match for student_id,
case-insensitive substring for title, student_name, journal, keywords,
abstract, affiliations (and editorial, tested on the joined row, whose
column is not copied into the result dict), semicolon-list membership for
author -- with the one qualification forced by the code: the year
exact-match against the first four characters of published_date is only
enforced on hits whose published_date is non-empty; a hit with an empty
published_date passes the year filter unconditionally. -/
theorem c2_amended_filters (chunk_ids : List Nat) (meta : Nat → Option ChunkRec)
    (hits : List (Int × Int)) (k : Nat) (sections : Option (List String))
    (f : Filters) (r : SearchResult)
    (hr : r ∈ search chunk_ids meta hits k sections f) :
    (∀ v, f.title = some v → containsCI v r.title = true)
      ∧ (∀ v, f.student_id = some v → r.student_id = v)
      ∧ (∀ v, f.student_name = some v → containsCI v r.student_name = true)
      ∧ (∀ s, f.author = some (Sum.inl s) →
          ((splitAuthors s).any (fun nm => containsCI nm r.authors)) = true)
      ∧ (∀ ls, f.author = some (Sum.inr ls) →
          (ls.any (fun nm => containsCI nm r.authors)) = true)
      ∧ (∀ v, f.journal = some v → containsCI v r.journal = true)
      ∧ (∀ v, f.year = some v → r.published_date ≠ "" →
          v = r.published_date.take 4)
      ∧ (∀ v, f.abstract = some v → containsCI v r.abstract = true)
      ∧ (∀ v, f.keywords = some v → containsCI v r.keywords = true)
      ∧ (∀ v, f.affiliations = some v → containsCI v r.affiliations = true)
      ∧ (∃ c : ChunkRec, r = mkResult c r.score
          ∧ ∀ v, f.editorial = some v → containsCI v c.editorial = true) := by
  obtain ⟨h, _, hres⟩ := searchGo_mem (resolveHit chunk_ids meta sections f) k hits 0 r
    (by simpa [search] using hr)
  obtain ⟨c, _, _, hpass, hmk⟩ := resolveHit_inv chunk_ids meta sections f h r hres
  simp only [passFilters, Bool.and_eq_true] at hpass
  obtain ⟨⟨⟨⟨⟨⟨⟨⟨⟨hTi, hSi⟩, hSn⟩, hAu⟩, hJo⟩, hEd⟩, hYe⟩, hAb⟩, hKw⟩, hAf⟩ := hpass
  subst hmk
  refine ⟨?_, ?_, ?_, ?_, ?_, ?_, ?_, ?_, ?_, ?_, ?_⟩
  · intro v hv; simpa [titleOk, hv, mkResult] using hTi
  · intro v hv
    simp only [studentIdOk, hv] at hSi
    simpa [mkResult] using (eq_of_beq hSi).symm
  · intro v hv; simpa [studentNameOk, hv, mkResult] using hSn
  · intro s hs; simpa [authorOk, hs, mkResult] using hAu
  · intro ls hls; simpa [authorOk, hls, mkResult] using hAu
  · intro v hv; simpa [journalOk, hv, mkResult] using hJo
  · intro v hv hne
    simp only [mkResult] at hne
    simp only [yearOk, hv] at hYe
    rw [if_neg (by simpa using hne)] at hYe
    simpa [mkResult] using eq_of_beq hYe
  · intro v hv; simpa [abstractOk, hv, mkResult] using hAb
  · intro v hv; simpa [keywordsOk, hv, mkResult] using hKw
  · intro v hv; simpa [affiliationsOk, hv, mkResult] using hAf
  · exact ⟨c, by simp [mkResult], fun v hv => by simpa [editorialOk, hv] using hEd⟩

theorem c2_amended_filters_witness :
    mkResult wChunk1 1 ∈ search wIds wMeta wHits 5 none fTitleSid
      ∧ containsCI "avanzados" (mkResult wChunk1 1).title = true
      ∧ (mkResult wChunk1 1).student_id = "S1" :=
  ⟨by decide,
   (c2_amended_filters wIds wMeta wHits 5 none fTitleSid (mkResult wChunk1 1)
      (by decide)).1 "avanzados" (by decide),
   ((c2_amended_filters wIds wMeta wHits 5 none fTitleSid (mkResult wChunk1 1)
      (by decide)).2).1 "S1" (by decide)⟩

theorem searchGo_skip (ri : Int × Int → Option SearchResult) (k : Nat)
    (h0 : Int × Int) (hh : ri h0 = none) :
    ∀ (A B : List (Int × Int)) (cnt : Nat),
      searchGo ri k (A ++ h0 :: B) cnt = searchGo ri k (A ++ B) cnt := by
  intro A
  induction A with
  | nil => intro B cnt; simp [searchGo, hh]
  | cons a A ih =>
    intro B cnt
    simp only [List.cons_append, searchGo]
    cases hra : ri a with
    | none => exact ih B cnt
    | some r =>
      by_cases hk : k ≤ cnt + 1
      · simp [hk]
      · simp [hk, ih B (cnt + 1)]

/-- C8: an ANN hit whose identifier cannot be resolved -- negative index,
index out of range of the loaded chunk_ids list, or metadata lookup
returning no row -- is silently skipped by search: the result on any hit
list containing such a hit equals the result on the same list with that
hit removed, wherever it sits, so the remaining candidates are processed
unchanged and no error is possible (the model is a total function). -/
theorem c8_skip_unresolvable (chunk_ids : List Nat) (meta : Nat → Option ChunkRec)
    (sections : Option (List String)) (f : Filters) (A B : List (Int × Int))
    (d i : Int) (k : Nat) (hbad : lookupHit chunk_ids meta i = none) :
    search chunk_ids meta (A ++ (d, i) :: B) k sections f
      = search chunk_ids meta (A ++ B) k sections f := by
  have hres : resolveHit chunk_ids meta sections f (d, i) = none := by
    simp [resolveHit, hbad]
  simpa [search] using searchGo_skip (resolveHit chunk_ids meta sections f) k (d, i) hres A B 0

theorem c8_skip_unresolvable_witness :
    lookupHit wIds wMeta 99 = none
      ∧ search wIds wMeta ([(1, 0)] ++ (5, 99) :: [(2, 1)]) 5 none noFilters
          = search wIds wMeta ([(1, 0)] ++ [(2, 1)]) 5 none noFilters :=
  ⟨by decide,
   c8_skip_unresolvable wIds wMeta none noFilters [(1, 0)] [(2, 1)] 5 99 5 (by decide)⟩

theorem resolveHit_score (chunk_ids : List Nat) (meta : Nat → Option ChunkRec)
    (sections : Option (List String)) (f : Filters) (h : Int × Int)
    (r : SearchResult) (hr : resolveHit chunk_ids meta sections f h = some r) :
    r.score = h.1 := by
  obtain ⟨c, _, _, _, hmk⟩ := resolveHit_inv chunk_ids meta sections f h r hr
  subst hmk
  simp [mkResult]

theorem searchGo_score_sublist (ri : Int × Int → Option SearchResult) (k : Nat)
    (hsc : ∀ h r, ri h = some r → r.score = h.1) :
    ∀ (hits : List (Int × Int)) (cnt : Nat),
      ((searchGo ri k hits cnt).map (fun r => r.score)).Sublist (hits.map Prod.fst) := by
  intro hits
  induction hits with
  | nil => intro cnt; simp [searchGo]
  | cons h rest ih =>
    intro cnt
    cases hri : ri h with
    | none =>
      simp only [searchGo, hri, List.map_cons]
      exact (ih cnt).cons _
    | some r =>
      have hs : r.score = h.1 := hsc h r hri
      simp only [searchGo, hri, List.map_cons]
      by_cases hk : k ≤ cnt + 1
      · rw [if_pos hk]
        simp only [List.map_cons, List.map_nil, hs]
        exact (List.nil_sublist (rest.map Prod.fst)).cons₂ h.1
      · rw [if_neg hk]
        simpa [hs] using (ih (cnt + 1)).cons₂ h.1

/-- C10: when the ANN distances arrive in non-decreasing order (as an L2
flat index returns them), the score column of the results of search is a
position-respecting selection of those distances (each result carries the
distance of the hit it came from, at that hit's rank), and consequently
the scores across the returned list are non-decreasing from first to
last. -/
theorem c10_scores_nondecreasing (chunk_ids : List Nat) (meta : Nat → Option ChunkRec)
    (hits : List (Int × Int)) (k : Nat) (sections : Option (List String))
    (f : Filters) (hsort : (hits.map Prod.fst).Pairwise (fun a b => a ≤ b)) :
    ((search chunk_ids meta hits k sections f).map (fun r => r.score)).Sublist
        (hits.map Prod.fst)
      ∧ ((search chunk_ids meta hits k sections f).map (fun r => r.score)).Pairwise
        (fun a b => a ≤ b) := by
  have hsub : ((search chunk_ids meta hits k sections f).map (fun r => r.score)).Sublist
      (hits.map Prod.fst) := by
    simpa [search] using
      searchGo_score_sublist (resolveHit chunk_ids meta sections f) k
        (fun h r hr => resolveHit_score chunk_ids meta sections f h r hr) hits 0
  exact ⟨hsub, List.Pairwise.sublist hsub hsort⟩

theorem c10_scores_nondecreasing_witness :
    (wHits.map Prod.fst).Pairwise (fun a b => a ≤ b)
      ∧ (((search wIds wMeta wHits 2 none noFilters).map (fun r => r.score)).Sublist
            (wHits.map Prod.fst)
          ∧ ((search wIds wMeta wHits 2 none noFilters).map (fun r => r.score)).Pairwise
            (fun a b => a ≤ b)) :=
  ⟨by decide, c10_scores_nondecreasing wIds wMeta wHits 2 none noFilters (by decide)⟩

/-! ## Theorems about the chunker -/

theorem rfindIn_bounds (l pat : List Char) (s e i : Nat)
    (h : rfindIn l pat s e = some i) :
    s ≤ i ∧ i + pat.length ≤ min e l.length := by
  have hm : i ∈ (List.range (min e l.length + 1)).filter
      (fun i => decide (s ≤ i) && decide (i + pat.length ≤ min e l.length)
        && matchAt l pat i) :=
    List.mem_of_mem_getLast? (by rw [Option.mem_def]; exact h)
  have hp := (List.mem_filter.mp hm).2
  simp only [Bool.and_eq_true, decide_eq_true_eq] at hp
  exact ⟨hp.1.1, hp.1.2⟩

theorem trySep_bounds (l sep : List Char) (s e r : Nat)
    (h : trySep l sep s e = some r) :
    s < r ∧ r ≤ min e l.length := by
  unfold trySep at h
  cases hf : rfindIn l sep s e with
  | none => rw [hf] at h; cases h
  | some i =>
    simp only [hf] at h
    by_cases hsi : s < i
    · rw [if_pos hsi] at h
      obtain ⟨-, hb⟩ := rfindIn_bounds l sep s e i hf
      have hr : r = i + sep.length := (Option.some_inj.mp h).symm
      omega
    · rw [if_neg hsi] at h; cases h

theorem findCut_bounds (l : List Char) (s e r : Nat) (h : findCut l s e = some r) :
    s < r ∧ r ≤ min e l.length := by
  unfold findCut at h
  cases h1 : trySep l ['.', ' '] s e with
  | some x =>
    rw [h1] at h
    exact (Option.some_inj.mp h) ▸ trySep_bounds l ['.', ' '] s e x h1
  | none =>
    rw [h1] at h
    cases h2 : trySep l ['\n'] s e with
    | some x =>
      rw [h2] at h
      exact (Option.some_inj.mp h) ▸ trySep_bounds l ['\n'] s e x h2
    | none =>
      rw [h2] at h
      exact trySep_bounds l [' '] s e r h

theorem chunkEnd_eq_some (l : List Char) (cs s e : Nat) (h : s + cs < l.length)
    (hf : findCut l s (s + cs) = some e) : chunkEnd l cs s = e := by
  unfold chunkEnd
  rw [if_pos h, hf]

theorem chunkEnd_eq_nofind (l : List Char) (cs s : Nat) (h : s + cs < l.length)
    (hf : findCut l s (s + cs) = none) : chunkEnd l cs s = s + cs := by
  unfold chunkEnd
  rw [if_pos h, hf]

theorem chunkEnd_eq_last (l : List Char) (cs s : Nat) (h : ¬ s + cs < l.length) :
    chunkEnd l cs s = s + cs := by
  unfold chunkEnd
  rw [if_neg h]

theorem chunkEnd_le (l : List Char) (cs s : Nat) : chunkEnd l cs s ≤ s + cs := by
  by_cases h : s + cs < l.length
  · cases hf : findCut l s (s + cs) with
    | some e =>
      rw [chunkEnd_eq_some l cs s e h hf]
      have := (findCut_bounds l s (s + cs) e hf).2
      omega
    | none => rw [chunkEnd_eq_nofind l cs s h hf]
  · rw [chunkEnd_eq_last l cs s h]

theorem chunkEnd_cases (l : List Char) (cs s : Nat) :
    chunkEnd l cs s ≤ l.length ∨ chunkEnd l cs s = s + cs := by
  by_cases h : s + cs < l.length
  · left
    cases hf : findCut l s (s + cs) with
    | some e =>
      rw [chunkEnd_eq_some l cs s e h hf]
      have := (findCut_bounds l s (s + cs) e hf).2
      omega
    | none =>
      rw [chunkEnd_eq_nofind l cs s h hf]
      omega
  · right
    exact chunkEnd_eq_last l cs s h

theorem chunkEnd_pos (l : List Char) (cs s : Nat) (hcs : 1 ≤ cs) :
    s < chunkEnd l cs s := by
  by_cases h : s + cs < l.length
  · cases hf : findCut l s (s + cs) with
    | some e =>
      rw [chunkEnd_eq_some l cs s e h hf]
      exact (findCut_bounds l s (s + cs) e hf).1
    | none =>
      rw [chunkEnd_eq_nofind l cs s h hf]
      omega
  · rw [chunkEnd_eq_last l cs s h]
    omega

theorem nextStart_gt (l : List Char) (cs ov s : Nat) : s < nextStart l cs ov s :=
  lt_of_lt_of_le (Nat.lt_succ_self s) (le_max_left _ _)

theorem tokenizeGo_fuel (l : List Char) (cs ov : Nat) :
    ∀ (fuel fuel' start ci : Nat),
      l.length ≤ start + fuel → l.length ≤ start + fuel' →
      tokenizeGo l cs ov fuel start ci = tokenizeGo l cs ov fuel' start ci := by
  intro fuel
  induction fuel with
  | zero =>
    intro fuel' start ci h1 _
    cases fuel' with
    | zero => rfl
    | succ f' =>
      have hs : ¬ start < l.length := by omega
      simp [tokenizeGo, hs]
  | succ f ih =>
    intro fuel' start ci h1 h2
    cases fuel' with
    | zero =>
      have hs : ¬ start < l.length := by omega
      simp [tokenizeGo, hs]
    | succ f' =>
      by_cases hs : start < l.length
      · have hn := nextStart_gt l cs ov start
        have e1 : l.length ≤ nextStart l cs ov start + f := by omega
        have e2 : l.length ≤ nextStart l cs ov start + f' := by omega
        simp only [tokenizeGo, if_pos hs]
        by_cases he : (pyStrip (pySlice l start (chunkEnd l cs start))).isEmpty = true
        · rw [if_pos he, if_pos he]
          exact ih f' _ ci e1 e2
        · rw [if_neg he, if_neg he, ih f' _ (ci + 1) e1 e2]
      · simp [tokenizeGo, hs]

theorem tokenizeGo_mem (l : List Char) (cs ov : Nat) :
    ∀ (fuel start ci : Nat) (c : PyChunk), c ∈ tokenizeGo l cs ov fuel start ci →
      start ≤ c.start_pos ∧ ci ≤ c.index ∧ c.start_pos < l.length
        ∧ c = mkPyChunk l cs ov c.start_pos c.index
        ∧ (pyStrip (pySlice l c.start_pos (chunkEnd l cs c.start_pos))).isEmpty = false := by
  intro fuel
  induction fuel with
  | zero => intro start ci c hc; simp [tokenizeGo] at hc
  | succ f ih =>
    intro start ci c hc
    by_cases hs : start < l.length
    · simp only [tokenizeGo, if_pos hs] at hc
      by_cases he : (pyStrip (pySlice l start (chunkEnd l cs start))).isEmpty = true
      · rw [if_pos he] at hc
        obtain ⟨hsp, hci, hlt, hmk, hne⟩ := ih _ _ c hc
        have := nextStart_gt l cs ov start
        exact ⟨by omega, hci, hlt, hmk, hne⟩
      · rw [if_neg he] at hc
        rcases List.mem_cons.mp hc with hEq | hTail
        · subst hEq
          refine ⟨le_refl _, le_refl _, hs, rfl, ?_⟩
          simp only [mkPyChunk]
          exact Bool.not_eq_true _ ▸ he
        · obtain ⟨hsp, hci, hlt, hmk, hne⟩ := ih _ _ c hTail
          have := nextStart_gt l cs ov start
          exact ⟨by omega, by omega, hlt, hmk, hne⟩
    · simp [tokenizeGo, hs] at hc

theorem tokenizeGo_chain (l : List Char) (cs ov : Nat) :
    ∀ (fuel start ci : Nat),
      List.Chain' (fun a b => a.start_pos < b.start_pos ∧ a.index < b.index)
        (tokenizeGo l cs ov fuel start ci) := by
  intro fuel
  induction fuel with
  | zero => intro start ci; simp [tokenizeGo]
  | succ f ih =>
    intro start ci
    by_cases hs : start < l.length
    · simp only [tokenizeGo, if_pos hs]
      by_cases he : (pyStrip (pySlice l start (chunkEnd l cs start))).isEmpty = true
      · rw [if_pos he]; exact ih _ _
      · rw [if_neg he]
        rw [List.chain'_cons']
        refine ⟨?_, ih _ _⟩
        intro y hy
        have hym : y ∈ tokenizeGo l cs ov f (nextStart l cs ov start) (ci + 1) :=
          List.mem_of_mem_head? hy
        obtain ⟨hsp, hci, -, -, -⟩ := tokenizeGo_mem l cs ov f _ _ y hym
        have := nextStart_gt l cs ov start
        constructor <;> simp only [mkPyChunk] <;> omega
    · simp [tokenizeGo, hs]

theorem pySlice_ne_nil (n : List Char) (a b : Nat) (h : pySlice n a b ≠ []) :
    a < b ∧ a < n.length := by
  unfold pySlice at h
  rw [Ne, List.drop_eq_nil_iff] at h
  rw [List.length_take] at h
  omega

theorem pyStrip_ne_nil (x : List Char) (h : pyStrip x ≠ []) : x ≠ [] := by
  intro hx
  subst hx
  exact h rfl

/-- C4 counterexample: with the default configuration the single chunk
produced from a 20-character text records end_pos = 512, strictly greater
than the length of the normalized text, refuting end_pos <= len. -/
theorem c4_counterexample_end_pos :
    tokenize_text "aaaaaaaaaaaaaaaaaaaa" 512 50
        = [{ text := List.replicate 20 'a', size := 20, index := 0, start_pos := 0,
             end_pos := 512, overlap_start := 0, overlap_end := 20 }]
      ∧ (normalizeText "aaaaaaaaaaaaaaaaaaaa".toList).length = 20
      ∧ ¬ (512 : Nat) ≤ 20 := by decide

/-- C4 (amended): every chunk produced by tokenize_text satisfies
0 <= start_pos < end_pos, start_pos < len(normalizedText),
end_pos <= start_pos + chunk_size, the chunk index is strictly increasing
across the sequence, and the chunk text equals
normalizedText[start_pos:end_pos].strip() (a clamped slice) and is
non-empty -- but end_pos <= len(normalizedText) only holds when the end
was snapped or still inside the text: on a chunk whose raw end runs past
the text (the final chunk), end_pos = start_pos + chunk_size may exceed
len(normalizedText). -/
theorem c4_amended_chunk_invariants (text : String) (cs ov : Nat) :
    (∀ c ∈ tokenize_text text cs ov,
        c.start_pos < c.end_pos
          ∧ c.start_pos < (normalizeText text.toList).length
          ∧ c.end_pos ≤ c.start_pos + cs
          ∧ (c.end_pos ≤ (normalizeText text.toList).length ∨ c.end_pos = c.start_pos + cs)
          ∧ c.text = pyStrip (pySlice (normalizeText text.toList) c.start_pos c.end_pos)
          ∧ c.text ≠ []
          ∧ c.size = c.text.length)
      ∧ List.Chain' (fun a b => a.index < b.index) (tokenize_text text cs ov) := by
  constructor
  · intro c hc
    simp only [tokenize_text] at hc
    split at hc
    · simp at hc
    · obtain ⟨-, -, hlt, hmk, hne⟩ :=
        tokenizeGo_mem (normalizeText text.toList) cs ov _ 0 0 c hc
      have htext : c.text
          = pyStrip (pySlice (normalizeText text.toList) c.start_pos
              (chunkEnd (normalizeText text.toList) cs c.start_pos)) := by
        conv_lhs => rw [hmk]
        rfl
      have hend : c.end_pos = chunkEnd (normalizeText text.toList) cs c.start_pos := by
        conv_lhs => rw [hmk]
        rfl
      have hsize : c.size = c.text.length := by
        rw [hmk]
        rfl
      have hA : pyStrip (pySlice (normalizeText text.toList) c.start_pos
          (chunkEnd (normalizeText text.toList) cs c.start_pos)) ≠ [] := by
        intro h0
        rw [h0] at hne
        simp at hne
      have hB := pySlice_ne_nil (normalizeText text.toList) _ _ (pyStrip_ne_nil _ hA)
      refine ⟨?_, hB.2, ?_, ?_, ?_, ?_, hsize⟩
      · rw [hend]; exact hB.1
      · rw [hend]; exact chunkEnd_le _ cs _
      · rw [hend]; exact chunkEnd_cases _ cs _
      · rw [htext, hend]
      · rw [htext]; exact hA
  · simp only [tokenize_text]
    split
    · exact List.chain'_nil
    · exact List.Chain'.imp (fun a b h => h.2)
        (tokenizeGo_chain (normalizeText text.toList) cs ov _ 0 0)

theorem c4_amended_chunk_invariants_witness :
    (PyChunk.mk ['a', 'b'] 2 0 0 3 0 3) ∈ tokenize_text "ab cd ef gh ij" 3 0
      ∧ ((PyChunk.mk ['a', 'b'] 2 0 0 3 0 3).start_pos
            < (PyChunk.mk ['a', 'b'] 2 0 0 3 0 3).end_pos
          ∧ (PyChunk.mk ['a', 'b'] 2 0 0 3 0 3).start_pos
            < (normalizeText "ab cd ef gh ij".toList).length
          ∧ (PyChunk.mk ['a', 'b'] 2 0 0 3 0 3).end_pos
            ≤ (PyChunk.mk ['a', 'b'] 2 0 0 3 0 3).start_pos + 3
          ∧ ((PyChunk.mk ['a', 'b'] 2 0 0 3 0 3).end_pos
                ≤ (normalizeText "ab cd ef gh ij".toList).length
              ∨ (PyChunk.mk ['a', 'b'] 2 0 0 3 0 3).end_pos
                = (PyChunk.mk ['a', 'b'] 2 0 0 3 0 3).start_pos + 3)
          ∧ (PyChunk.mk ['a', 'b'] 2 0 0 3 0 3).text
            = pyStrip (pySlice (normalizeText "ab cd ef gh ij".toList)
                (PyChunk.mk ['a', 'b'] 2 0 0 3 0 3).start_pos
                (PyChunk.mk ['a', 'b'] 2 0 0 3 0 3).end_pos)
          ∧ (PyChunk.mk ['a', 'b'] 2 0 0 3 0 3).text ≠ []
          ∧ (PyChunk.mk ['a', 'b'] 2 0 0 3 0 3).size
            = (PyChunk.mk ['a', 'b'] 2 0 0 3 0 3).text.length) :=
  ⟨by decide, (c4_amended_chunk_invariants "ab cd ef gh ij" 3 0).1 _ (by decide)⟩

/-- C7: the tokenize_text segmentation loop terminates on every input and
configuration: the result is independent of the fuel once the fuel covers
len - start, because the cursor strictly advances on every iteration
(start < nextStart = max(start + 1, end - overlap), with no hypothesis on
overlap versus chunk_size, so also in the degenerate configuration
overlap >= chunk_size); moreover the start_pos offsets of the emitted
chunks are strictly increasing for every configuration, in particular for
overlap < chunk_size and for texts whose length is an exact multiple of
chunk_size. -/
theorem c7_termination_progress (text : String) (n : List Char)
    (cs ov start ci fuel fuel' : Nat)
    (h1 : n.length ≤ start + fuel) (h2 : n.length ≤ start + fuel') :
    tokenizeGo n cs ov fuel start ci = tokenizeGo n cs ov fuel' start ci
      ∧ start < nextStart n cs ov start
      ∧ List.Chain' (fun a b => a.start_pos < b.start_pos) (tokenize_text text cs ov) := by
  refine ⟨tokenizeGo_fuel n cs ov fuel fuel' start ci h1 h2,
    nextStart_gt n cs ov start, ?_⟩
  simp only [tokenize_text]
  split
  · exact List.chain'_nil
  · exact List.Chain'.imp (fun a b h => h.1)
      (tokenizeGo_chain (normalizeText text.toList) cs ov _ 0 0)

theorem c7_termination_progress_witness :
    (normalizeText "ab cd ef gh ij".toList).length ≤ 0 + 14
      ∧ (normalizeText "ab cd ef gh ij".toList).length ≤ 0 + 20
      ∧ (tokenizeGo (normalizeText "ab cd ef gh ij".toList) 3 0 14 0 0
            = tokenizeGo (normalizeText "ab cd ef gh ij".toList) 3 0 20 0 0
          ∧ 0 < nextStart (normalizeText "ab cd ef gh ij".toList) 3 0 0
          ∧ List.Chain' (fun a b => a.start_pos < b.start_pos)
              (tokenize_text "ab cd ef gh ij" 3 0)) :=
  ⟨by decide, by decide,
   c7_termination_progress "ab cd ef gh ij" (normalizeText "ab cd ef gh ij".toList)
     3 0 0 0 14 20 (by decide) (by decide)⟩

theorem head_dropWhile_not_space (l : List Char) (x : Char)
    (h : (l.dropWhile isPySpace).head? = some x) : isPySpace x = false := by
  have hd := List.head?_dropWhile_not isPySpace l
  rw [h] at hd
  exact hd

theorem pyStrip_head (l : List Char) (x : Char) (h : (pyStrip l).head? = some x) :
    isPySpace x = false := by
  unfold pyStrip at h
  obtain ⟨t, ht⟩ := List.rdropWhile_prefix isPySpace (l.dropWhile isPySpace)
  cases hps : (l.dropWhile isPySpace).rdropWhile isPySpace with
  | nil => rw [hps] at h; cases h
  | cons a as =>
    rw [hps] at h
    have hx : a = x := by
      simpa using h
    subst hx
    rw [hps] at ht
    exact head_dropWhile_not_space l a (by rw [← ht]; rfl)

theorem pyStrip_getLast (l : List Char) (x : Char)
    (h : (pyStrip l).getLast? = some x) : isPySpace x = false := by
  unfold pyStrip List.rdropWhile at h
  rw [List.getLast?_eq_head?_reverse, List.reverse_reverse] at h
  exact head_dropWhile_not_space _ x h

theorem collapseAux_head_true (l : List Char) :
    ∀ x, (collapseAux true l).head? = some x → isPySpace x = false := by
  induction l with
  | nil => intro x h; cases h
  | cons c t ih =>
    intro x h
    cases hc : isPySpace c with
    | true =>
      simp only [collapseAux, hc, if_true] at h
      exact ih x h
    | false =>
      simp only [collapseAux, hc, Bool.false_eq_true, if_false, List.head?_cons] at h
      rw [← Option.some_inj.mp h]
      exact hc

theorem collapseAux_chain (l : List Char) :
    ∀ b, List.Chain' (fun a c => isPySpace a = false ∨ isPySpace c = false)
      (collapseAux b l) := by
  induction l with
  | nil => intro b; simp [collapseAux]
  | cons c t ih =>
    intro b
    cases hc : isPySpace c with
    | true =>
      cases b with
      | true =>
        simpa [collapseAux, hc] using ih true
      | false =>
        simp only [collapseAux, hc, if_true, Bool.false_eq_true, if_false]
        rw [List.chain'_cons']
        exact ⟨fun y hy => Or.inr (collapseAux_head_true t y hy), ih true⟩
    | false =>
      simp only [collapseAux, hc, Bool.false_eq_true, if_false]
      rw [List.chain'_cons']
      exact ⟨fun y _ => Or.inl hc, ih false⟩

theorem pySlice_within (n : List Char) (a b : Nat) : pySlice n a b <:+: n :=
  ((List.drop_suffix a (n.take b)).isInfix).trans ((List.take_prefix b n).isInfix)

theorem pyStrip_within (l : List Char) : pyStrip l <:+: l :=
  ((List.rdropWhile_prefix isPySpace (l.dropWhile isPySpace)).isInfix).trans
    ((List.dropWhile_suffix isPySpace).isInfix)

/-- C9: every chunk returned by tokenize_text has a text with no leading
whitespace, no trailing whitespace and no two consecutive whitespace
characters (the normalization collapses every whitespace run to one space
before segmentation and the chunk text is a stripped contiguous slice of
the normalized text), and its size field equals the length of its text. -/
theorem c9_chunk_text_whitespace (text : String) (cs ov : Nat) (c : PyChunk)
    (hc : c ∈ tokenize_text text cs ov) :
    (∀ x, c.text.head? = some x → isPySpace x = false)
      ∧ (∀ x, c.text.getLast? = some x → isPySpace x = false)
      ∧ List.Chain' (fun a b => isPySpace a = false ∨ isPySpace b = false) c.text
      ∧ c.size = c.text.length
      ∧ c.text ≠ [] := by
  simp only [tokenize_text] at hc
  split at hc
  · simp at hc
  · obtain ⟨-, -, -, hmk, hne⟩ :=
      tokenizeGo_mem (normalizeText text.toList) cs ov _ 0 0 c hc
    have htext : c.text
        = pyStrip (pySlice (normalizeText text.toList) c.start_pos
            (chunkEnd (normalizeText text.toList) cs c.start_pos)) := by
      conv_lhs => rw [hmk]
      rfl
    have hsize : c.size = c.text.length := by
      rw [hmk]
      rfl
    refine ⟨?_, ?_, ?_, hsize, ?_⟩
    · intro x hx
      rw [htext] at hx
      exact pyStrip_head _ x hx
    · intro x hx
      rw [htext] at hx
      exact pyStrip_getLast _ x hx
    · rw [htext]
      exact List.Chain'.infix (collapseAux_chain (pyStrip text.toList) false)
        ((pyStrip_within _).trans (pySlice_within _ _ _))
    · rw [htext]
      intro h0
      rw [h0] at hne
      simp at hne

theorem c9_chunk_text_whitespace_witness :
    (PyChunk.mk ['a', 'b'] 2 0 0 3 0 3) ∈ tokenize_text "ab cd ef gh ij" 3 0
      ∧ ((∀ x, (PyChunk.mk ['a', 'b'] 2 0 0 3 0 3).text.head? = some x →
            isPySpace x = false)
          ∧ (∀ x, (PyChunk.mk ['a', 'b'] 2 0 0 3 0 3).text.getLast? = some x →
              isPySpace x = false)
          ∧ List.Chain' (fun a b => isPySpace a = false ∨ isPySpace b = false)
              (PyChunk.mk ['a', 'b'] 2 0 0 3 0 3).text
          ∧ (PyChunk.mk ['a', 'b'] 2 0 0 3 0 3).size
            = (PyChunk.mk ['a', 'b'] 2 0 0 3 0 3).text.length
          ∧ (PyChunk.mk ['a', 'b'] 2 0 0 3 0 3).text ≠ []) :=
  ⟨by decide, c9_chunk_text_whitespace "ab cd ef gh ij" 3 0 _ (by decide)⟩

theorem removeWS_append (a b : List Char) :
    removeWS (a ++ b) = removeWS a ++ removeWS b := by
  simp [removeWS]

theorem removeWS_dropWhile (l : List Char) :
    removeWS (l.dropWhile isPySpace) = removeWS l := by
  induction l with
  | nil => rfl
  | cons c t ih =>
    cases hc : isPySpace c with
    | true =>
      simp only [List.dropWhile_cons, hc, if_true]
      rw [ih]
      simp [removeWS, List.filter_cons, hc]
    | false => simp [List.dropWhile_cons, hc]

theorem removeWS_reverse (l : List Char) :
    removeWS l.reverse = (removeWS l).reverse := by
  simp [removeWS]

theorem removeWS_pyStrip (l : List Char) : removeWS (pyStrip l) = removeWS l := by
  unfold pyStrip List.rdropWhile
  rw [removeWS_reverse, removeWS_dropWhile, removeWS_reverse, List.reverse_reverse,
    removeWS_dropWhile]

theorem removeWS_collapseAux (l : List Char) :
    ∀ b, removeWS (collapseAux b l) = removeWS l := by
  have hsp : isPySpace ' ' = true := rfl
  induction l with
  | nil => intro b; rfl
  | cons c t ih =>
    intro b
    cases hc : isPySpace c with
    | true =>
      cases b with
      | true =>
        simp only [collapseAux, hc, if_true]
        rw [ih true]
        simp [removeWS, List.filter_cons, hc]
      | false =>
        simp only [collapseAux, hc, if_true, Bool.false_eq_true, if_false]
        rw [show removeWS (' ' :: collapseAux true t) = removeWS (collapseAux true t) by
          simp [removeWS, List.filter_cons, hsp]]
        rw [ih true]
        simp [removeWS, List.filter_cons, hc]
    | false =>
      simp only [collapseAux, hc, Bool.false_eq_true, if_false]
      rw [show removeWS (c :: collapseAux false t) = c :: removeWS (collapseAux false t) by
        simp [removeWS, List.filter_cons, hc]]
      rw [ih false]
      simp [removeWS, List.filter_cons, hc]

theorem removeWS_normalize (l : List Char) :
    removeWS (normalizeText l) = removeWS l := by
  unfold normalizeText
  rw [removeWS_collapseAux, removeWS_pyStrip]

theorem drop_decompose (n : List Char) (s e : Nat) (hse : s ≤ e) (hsl : s ≤ n.length) :
    n.drop s = pySlice n s e ++ n.drop e := by
  conv_lhs => rw [← List.take_append_drop e n]
  rw [List.drop_append_of_le_length (by rw [List.length_take]; omega)]
  rfl

theorem nextStart_ov0 (l : List Char) (cs s : Nat) (hcs : 1 ≤ cs) :
    nextStart l cs 0 s = chunkEnd l cs s := by
  unfold nextStart
  have := chunkEnd_pos l cs s hcs
  omega

theorem tokenizeGo_concat_ov0 (n : List Char) (cs : Nat) (hcs : 1 ≤ cs) :
    ∀ (fuel start ci : Nat), n.length ≤ start + fuel →
      removeWS (concatTexts (tokenizeGo n cs 0 fuel start ci))
        = removeWS (n.drop start) := by
  intro fuel
  induction fuel with
  | zero =>
    intro start ci h
    have hd : n.drop start = [] := List.drop_eq_nil_of_le (by omega)
    simp [tokenizeGo, concatTexts, hd, removeWS]
  | succ f ih =>
    intro start ci h
    by_cases hs : start < n.length
    · have hlt := chunkEnd_pos n cs start hcs
      have hns : nextStart n cs 0 start = chunkEnd n cs start := nextStart_ov0 n cs start hcs
      have hdec : n.drop start
          = pySlice n start (chunkEnd n cs start) ++ n.drop (chunkEnd n cs start) :=
        drop_decompose n start _ (le_of_lt hlt) (le_of_lt hs)
      have hfuel : n.length ≤ nextStart n cs 0 start + f := by
        have := nextStart_gt n cs 0 start
        omega
      simp only [tokenizeGo, if_pos hs]
      by_cases he : (pyStrip (pySlice n start (chunkEnd n cs start))).isEmpty = true
      · rw [if_pos he]
        have h1 : pyStrip (pySlice n start (chunkEnd n cs start)) = [] := by
          simpa using he
        have hsliceWS : removeWS (pySlice n start (chunkEnd n cs start)) = [] := by
          rw [← removeWS_pyStrip, h1]
          rfl
        rw [ih _ ci hfuel, hns, hdec, removeWS_append, hsliceWS]
        rfl
      · rw [if_neg he]
        have hcons : concatTexts (mkPyChunk n cs 0 start ci ::
              tokenizeGo n cs 0 f (nextStart n cs 0 start) (ci + 1))
            = (mkPyChunk n cs 0 start ci).text
                ++ concatTexts (tokenizeGo n cs 0 f (nextStart n cs 0 start) (ci + 1)) := rfl
        rw [hcons, removeWS_append, ih _ (ci + 1) hfuel, hns, hdec, removeWS_append]
        have htext : removeWS (mkPyChunk n cs 0 start ci).text
            = removeWS (pySlice n start (chunkEnd n cs start)) := by
          show removeWS (pyStrip (pySlice n start (chunkEnd n cs start)))
              = removeWS (pySlice n start (chunkEnd n cs start))
          exact removeWS_pyStrip _
        rw [htext]
    · have hd : n.drop start = [] := List.drop_eq_nil_of_le (by omega)
      simp [tokenizeGo, hs, concatTexts, hd, removeWS]

/-- C5 counterexample: with the default-style overlapping configuration
(chunk_size 10, overlap 5) the chunk texts repeat the overlap window, so
their concatenation does not reconstruct the input modulo whitespace
normalization; and even with overlap 0 the strip at chunk boundaries
deletes the separating spaces, so the concatenation differs from the
normalized input as well. -/
theorem c5_counterexample_concat :
    normalizeText (concatTexts (tokenize_text "aaaaaaaaaaaaaaaaaaaa" 10 5))
        ≠ normalizeText "aaaaaaaaaaaaaaaaaaaa".toList
      ∧ normalizeText (concatTexts (tokenize_text "ab cd ef gh ij" 3 0))
        ≠ normalizeText "ab cd ef gh ij".toList := by decide

/-- C5 (amended): only in the overlap-free configuration does
concatenating the chunk texts reconstruct the input, and only up to
deletion of whitespace: for overlap = 0, chunk_size >= 1 and an accepted
input (stripped length at least 10), the concatenation of the text fields
in sequence order equals the original input after removing every
whitespace character from both. With overlap > 0 consecutive chunks repeat
the overlap window, and stripping deletes spaces at chunk boundaries, so
neither equality modulo whitespace normalization nor exact reconstruction
holds in general. -/
theorem c5_amended_concat (text : String) (cs : Nat) (hcs : 1 ≤ cs)
    (h10 : 10 ≤ (pyStrip text.toList).length) :
    removeWS (concatTexts (tokenize_text text cs 0)) = removeWS text.toList := by
  have hne : text.toList.isEmpty = false := by
    cases htl : text.toList with
    | nil => rw [htl] at h10; simp [pyStrip, List.rdropWhile] at h10
    | cons a as => rfl
  simp only [tokenize_text, hne, Bool.false_or]
  rw [if_neg (by simpa using h10)]
  rw [tokenizeGo_concat_ov0 (normalizeText text.toList) cs hcs
    (normalizeText text.toList).length 0 0 (by omega)]
  simp [removeWS_normalize]

theorem c5_amended_concat_witness :
    1 ≤ 3
      ∧ 10 ≤ (pyStrip "ab cd ef gh ij".toList).length
      ∧ removeWS (concatTexts (tokenize_text "ab cd ef gh ij" 3 0))
          = removeWS "ab cd ef gh ij".toList :=
  ⟨by decide, by decide, c5_amended_concat "ab cd ef gh ij" 3 (by decide) (by decide)⟩

/-! ## Theorems about the section classifier and the ingestion flow -/

/-- C6 counterexample: no keyword of the section_mappings table is a
substring of the cleaned heading "related work", so the classifier falls
back to "otros" on the spec example "Related Work" instead of returning
"estado_del_arte". -/
theorem c6_counterexample_related_work :
    categorize_section "Related Work" "" ≠ "estado_del_arte" := by decide

set_option maxRecDepth 8000 in
/-- C6 (amended): the classifier returns the spec outputs on the first and
third examples -- categorize_section("Metodología", "") = "metodologia"
(exact keyword match, similarity 1.0 above the 0.6 threshold) and
categorize_section("XYZ123", "") = "otros" (no keyword scores above the
threshold) -- but on "Related Work" it returns the fallback "otros", not
"estado_del_arte", because no keyword of the table occurs in the cleaned
heading "related work". -/
theorem c6_amended_examples :
    categorize_section "Metodología" "" = "metodologia"
      ∧ categorize_section "Related Work" "" = "otros"
      ∧ categorize_section "XYZ123" "" = "otros" := by decide

/-- C3: evaluation of the re-ingestion scenario. Processing the record dC3
once stores one documents row, one sections row and one text_chunks row.
Processing the identical record again leaves the documents table at one
row and insert_document returns the already-stored identifier 1 with the
database unchanged -- that much of the claim holds -- but
convert_json_to_sql then calls insert_sections_and_chunks unconditionally
with the returned identifier, so the second pass inserts the sections and
chunks again: both tables double instead of short-circuiting. -/
theorem c3_reingestion_duplicates_chunks :
    ((convert_json_to_sql hC3 emptyDB [dC3]).documents.length = 1
        ∧ (convert_json_to_sql hC3 emptyDB [dC3]).sections.length = 1
        ∧ (convert_json_to_sql hC3 emptyDB [dC3]).text_chunks.length = 1)
      ∧ (insert_document hC3 (convert_json_to_sql hC3 emptyDB [dC3]) dC3).1 = 1
      ∧ (insert_document hC3 (convert_json_to_sql hC3 emptyDB [dC3]) dC3).2
          = convert_json_to_sql hC3 emptyDB [dC3]
      ∧ (convert_json_to_sql hC3 emptyDB [dC3, dC3]).documents.length = 1
      ∧ (convert_json_to_sql hC3 emptyDB [dC3, dC3]).sections.length = 2
      ∧ (convert_json_to_sql hC3 emptyDB [dC3, dC3]).text_chunks.length = 2 := by decide
